import Mathlib

/-!
Shallow embedding of the anaconda-client excerpt:
  * `src/binstar_client/commands/notices.py` — the `notices` subcommand
    (argument normalization via `NoticesAction`, the `api_user` wrapper and
    the `main` dispatcher);
  * `src/binstar_client/plugins.py` — the legacy-subcommand bridge
    (`_subcommand` passthrough and `_deprecate` wrapper).

Python's `json` module is embedded as an executable parser/serializer over
an inductive `Json` type.  The embedding covers the integer fragment of JSON
numbers (floating-point payloads are outside the shallow embedding); objects
are modelled as key/value lists in parse order with later duplicate keys
overwriting earlier ones, as Python dicts do.  The filesystem consulted by
`pathlib.Path.exists`/`open` is a parameter mapping the raw argument string
to an entry (path normalisation is not modelled).
-/

/-- JSON values as produced by `json.loads`: null, booleans, (integer)
numbers, strings, arrays and objects. -/
inductive Json where
  | null : Json
  | bool (b : Bool) : Json
  | num (n : Int) : Json
  | str (s : String) : Json
  | arr (xs : List Json) : Json
  | obj (kvs : List (String × Json)) : Json

mutual

/-- Decidable equality on `Json` (the `deriving` handler does not support
nested inductives, so it is spelled out). -/
def Json.decEq : (a b : Json) → Decidable (a = b)
  | .null, .null => isTrue rfl
  | .bool a, .bool b =>
      match Bool.decEq a b with
      | isTrue h => isTrue (h ▸ rfl)
      | isFalse h => isFalse (fun hh => h (Json.bool.inj hh))
  | .num a, .num b =>
      match Int.decEq a b with
      | isTrue h => isTrue (h ▸ rfl)
      | isFalse h => isFalse (fun hh => h (Json.num.inj hh))
  | .str a, .str b =>
      match String.decEq a b with
      | isTrue h => isTrue (h ▸ rfl)
      | isFalse h => isFalse (fun hh => h (Json.str.inj hh))
  | .arr xs, .arr ys =>
      match Json.decEqList xs ys with
      | isTrue h => isTrue (h ▸ rfl)
      | isFalse h => isFalse (fun hh => h (Json.arr.inj hh))
  | .obj xs, .obj ys =>
      match Json.decEqObj xs ys with
      | isTrue h => isTrue (h ▸ rfl)
      | isFalse h => isFalse (fun hh => h (Json.obj.inj hh))
  | .null, .bool _ | .null, .num _ | .null, .str _ | .null, .arr _ | .null, .obj _
  | .bool _, .null | .bool _, .num _ | .bool _, .str _ | .bool _, .arr _ | .bool _, .obj _
  | .num _, .null | .num _, .bool _ | .num _, .str _ | .num _, .arr _ | .num _, .obj _
  | .str _, .null | .str _, .bool _ | .str _, .num _ | .str _, .arr _ | .str _, .obj _
  | .arr _, .null | .arr _, .bool _ | .arr _, .num _ | .arr _, .str _ | .arr _, .obj _
  | .obj _, .null | .obj _, .bool _ | .obj _, .num _ | .obj _, .str _ | .obj _, .arr _ =>
      isFalse (by intro h; exact Json.noConfusion h)

/-- Decidable equality on lists of `Json`. -/
def Json.decEqList : (xs ys : List Json) → Decidable (xs = ys)
  | [], [] => isTrue rfl
  | [], _ :: _ => isFalse (by intro h; exact List.noConfusion h)
  | _ :: _, [] => isFalse (by intro h; exact List.noConfusion h)
  | x :: xs, y :: ys =>
      match Json.decEq x y with
      | isTrue h1 =>
          match Json.decEqList xs ys with
          | isTrue h2 => isTrue (by rw [h1, h2])
          | isFalse h2 => isFalse (fun hh => h2 (List.cons.inj hh).2)
      | isFalse h1 => isFalse (fun hh => h1 (List.cons.inj hh).1)

/-- Decidable equality on key/value lists. -/
def Json.decEqObj : (xs ys : List (String × Json)) → Decidable (xs = ys)
  | [], [] => isTrue rfl
  | [], _ :: _ => isFalse (by intro h; exact List.noConfusion h)
  | _ :: _, [] => isFalse (by intro h; exact List.noConfusion h)
  | (k, v) :: xs, (l, w) :: ys =>
      match String.decEq k l with
      | isTrue hk =>
          match Json.decEq v w with
          | isTrue hv =>
              match Json.decEqObj xs ys with
              | isTrue h2 => isTrue (by rw [hk, hv, h2])
              | isFalse h2 => isFalse (fun hh => h2 (List.cons.inj hh).2)
          | isFalse hv =>
              isFalse (fun hh => hv (congrArg Prod.snd (List.cons.inj hh).1))
      | isFalse hk =>
          isFalse (fun hh => hk (congrArg Prod.fst (List.cons.inj hh).1))

end

instance : DecidableEq Json := Json.decEq

/-- Python truthiness of a JSON value, as tested by `if args.notices:` in
`main`: `None`, `False`, `0`, `""`, `[]` and `{}` are falsy. -/
def Json.truthy : Json → Bool
  | .null => false
  | .bool b => b
  | .num n => n != 0
  | .str s => s ≠ ""
  | .arr xs => !xs.isEmpty
  | .obj kvs => !kvs.isEmpty


/-- JSON whitespace as accepted by Python's `json.loads` scanner. -/
def isJsonWs (c : Char) : Bool :=
  c = ' ' || c = '\t' || c = '\n' || c = '\r'

/-- Drop leading JSON whitespace. -/
def skipWs (cs : List Char) : List Char :=
  cs.dropWhile isJsonWs

/-- Value of a hex digit, if any. -/
def hexVal (c : Char) : Option Nat :=
  if '0' ≤ c ∧ c ≤ '9' then some (c.toNat - 48)
  else if 'a' ≤ c ∧ c ≤ 'f' then some (c.toNat - 87)
  else if 'A' ≤ c ∧ c ≤ 'F' then some (c.toNat - 55)
  else none

/-- Four hex digits, as in a `\uXXXX` escape. -/
def parseHex4 : List Char → Option (Nat × List Char)
  | a :: b :: c :: d :: rest =>
    match hexVal a, hexVal b, hexVal c, hexVal d with
    | some x, some y, some z, some w => some (((x * 16 + y) * 16 + z) * 16 + w, rest)
    | _, _, _, _ => none
  | _ => none

/-- Decode one string escape (the characters after a backslash).  `\uXXXX`
surrogate pairs are combined as Python does; lone surrogates are rejected
because Lean strings cannot hold them (Python would keep them). -/
def parseEscape : List Char → Option (Char × List Char)
  | [] => none
  | e :: rest =>
    if e = '"' then some ('"', rest)
    else if e = '\\' then some ('\\', rest)
    else if e = '/' then some ('/', rest)
    else if e = 'b' then some ('\x08', rest)
    else if e = 'f' then some ('\x0c', rest)
    else if e = 'n' then some ('\n', rest)
    else if e = 'r' then some ('\r', rest)
    else if e = 't' then some ('\t', rest)
    else if e = 'u' then
      match parseHex4 rest with
      | none => none
      | some (n, rest2) =>
        if 0xD800 ≤ n ∧ n ≤ 0xDBFF then
          match rest2 with
          | '\\' :: 'u' :: rest3 =>
            match parseHex4 rest3 with
            | none => none
            | some (m, rest4) =>
              if 0xDC00 ≤ m ∧ m ≤ 0xDFFF then
                some (Char.ofNat (0x10000 + (n - 0xD800) * 0x400 + (m - 0xDC00)), rest4)
              else none
          | _ => none
        else if 0xDC00 ≤ n ∧ n ≤ 0xDFFF then none
        else some (Char.ofNat n, rest2)
    else none

/-- Body of a JSON string literal (the opening quote already consumed);
unescaped control characters are rejected, as in Python's strict mode.
`fuel` bounds recursion; one character is consumed per step, so any fuel
above the input length is enough. -/
def parseStringBody : Nat → List Char → Option (String × List Char)
  | 0, _ => none
  | _ + 1, [] => none
  | fuel + 1, c :: rest =>
    if c = '"' then some ("", rest)
    else if c = '\\' then
      match parseEscape rest with
      | none => none
      | some (e, rest2) =>
        (parseStringBody fuel rest2).map (fun p => (String.mk (e :: p.1.data), p.2))
    else if c.toNat < 0x20 then none
    else (parseStringBody fuel rest).map (fun p => (String.mk (c :: p.1.data), p.2))

/-- Digits of a decimal literal read greedily. -/
def digitsToNat (ds : List Char) : Nat :=
  ds.foldl (fun acc c => acc * 10 + (c.toNat - 48)) 0

/-- Finish an integer literal: a following `.`, `e` or `E` would start a
float, which is outside this embedding (floating point is not modelled). -/
def finishNumber (neg : Bool) (n : Nat) (rest : List Char) : Option (Int × List Char) :=
  match rest with
  | c :: _ =>
    if c = '.' ∨ c = 'e' ∨ c = 'E' then none
    else some (if neg then -(n : Int) else (n : Int), rest)
  | [] => some (if neg then -(n : Int) else (n : Int), [])

/-- Integer literal per Python's JSON number grammar `-?(0|[1-9][0-9]*)`
(no leading zeros; `NaN`/`Infinity` and floats are outside the embedding). -/
def parseNumber (cs : List Char) : Option (Int × List Char) :=
  let p : Bool × List Char :=
    match cs with
    | '-' :: rest => (true, rest)
    | _ => (false, cs)
  match p.2 with
  | [] => none
  | c :: rest =>
    if c = '0' then finishNumber p.1 0 rest
    else if c.isDigit then
      finishNumber p.1 (digitsToNat ((c :: rest).takeWhile Char.isDigit))
        ((c :: rest).dropWhile Char.isDigit)
    else none

/-- Insert a key/value pair into an object under construction: an existing
key keeps its position and is overwritten, as in a Python dict. -/
def objInsert : List (String × Json) → String → Json → List (String × Json)
  | [], k, v => [(k, v)]
  | (k1, v1) :: rest, k, v =>
    if k1 = k then (k1, v) :: rest else (k1, v1) :: objInsert rest k v

mutual

/-- One JSON value starting at the head of the input (no leading
whitespace), returning the value and the unconsumed suffix. -/
def parseValue : Nat → List Char → Option (Json × List Char)
  | 0, _ => none
  | fuel + 1, cs =>
    match cs with
    | [] => none
    | 'n' :: 'u' :: 'l' :: 'l' :: rest => some (.null, rest)
    | 't' :: 'r' :: 'u' :: 'e' :: rest => some (.bool true, rest)
    | 'f' :: 'a' :: 'l' :: 's' :: 'e' :: rest => some (.bool false, rest)
    | '"' :: rest =>
        (parseStringBody (rest.length + 1) rest).map (fun p => (.str p.1, p.2))
    | '[' :: rest =>
        match skipWs rest with
        | ']' :: rest2 => some (.arr [], rest2)
        | rest2 => parseArrayRest fuel [] rest2
    | '{' :: rest =>
        match skipWs rest with
        | '}' :: rest2 => some (.obj [], rest2)
        | rest2 => parseObjRest fuel [] rest2
    | _ => (parseNumber cs).map (fun p => (.num p.1, p.2))
termination_by structural fuel _ => fuel

/-- Elements of a non-empty array, positioned at the start of a value. -/
def parseArrayRest : Nat → List Json → List Char → Option (Json × List Char)
  | 0, _, _ => none
  | fuel + 1, acc, cs =>
    match parseValue fuel cs with
    | none => none
    | some (v, rest) =>
      match skipWs rest with
      | ',' :: rest2 => parseArrayRest fuel (acc ++ [v]) (skipWs rest2)
      | ']' :: rest2 => some (.arr (acc ++ [v]), rest2)
      | _ => none
termination_by structural fuel _ _ => fuel

/-- Members of a non-empty object, positioned at the start of a key. -/
def parseObjRest : Nat → List (String × Json) → List Char → Option (Json × List Char)
  | 0, _, _ => none
  | fuel + 1, acc, cs =>
    match cs with
    | '"' :: rest =>
      match parseStringBody (rest.length + 1) rest with
      | none => none
      | some (k, rest1) =>
        match skipWs rest1 with
        | ':' :: rest2 =>
          match parseValue fuel (skipWs rest2) with
          | none => none
          | some (v, rest3) =>
            match skipWs rest3 with
            | ',' :: rest4 => parseObjRest fuel (objInsert acc k v) (skipWs rest4)
            | '}' :: rest4 => some (.obj (objInsert acc k v), rest4)
            | _ => none
        | _ => none
    | _ => none
termination_by structural fuel _ _ => fuel

end

/-- Embedding of `json.loads`: parse the whole input as one JSON document,
allowing surrounding whitespace, rejecting trailing data. -/
def Json.loads (s : String) : Option Json :=
  match parseValue (2 * s.length + 4) (skipWs s.data) with
  | some (v, rest) => if skipWs rest = [] then some v else none
  | none => none

/-- Four lowercase hex digits, as emitted by `json.dumps` escapes. -/
def hex4Lower (n : Nat) : String :=
  let dig := fun (k : Nat) =>
    if k < 10 then Char.ofNat (48 + k) else Char.ofNat (87 + k)
  String.mk [dig (n / 4096 % 16), dig (n / 256 % 16), dig (n / 16 % 16), dig (n % 16)]

/-- Escape one character of a JSON string as `json.dumps` does with its
default `ensure_ascii=True`: quote, backslash and anything outside
`0x20`–`0x7e` are escaped, astral characters as surrogate pairs. -/
def escapeCharDump (c : Char) : String :=
  if c = '"' then "\\\""
  else if c = '\\' then "\\\\"
  else if c = '\x08' then "\\b"
  else if c = '\x0c' then "\\f"
  else if c = '\n' then "\\n"
  else if c = '\r' then "\\r"
  else if c = '\t' then "\\t"
  else if c.toNat < 0x20 ∨ c.toNat > 0x7e then
    if c.toNat > 0xFFFF then
      "\\u" ++ hex4Lower (0xD800 + (c.toNat - 0x10000) / 0x400)
        ++ "\\u" ++ hex4Lower (0xDC00 + (c.toNat - 0x10000) % 0x400)
    else "\\u" ++ hex4Lower c.toNat
  else String.singleton c

/-- A JSON string literal as serialized by `json.dumps`. -/
def Json.dumpString (s : String) : String :=
  "\"" ++ String.join (s.data.map escapeCharDump) ++ "\""

/-- The indentation prefix at nesting level `lvl` for `indent=2`. -/
def jsonIndent (lvl : Nat) : String :=
  String.mk (List.replicate (2 * lvl) ' ')

mutual

/-- Embedding of `json.dumps(v, indent=2)` at nesting level `lvl`:
empty containers collapse to `[]`/`\x7b\x7d`, non-empty ones put each
item on its own line with the `(",", ": ")` separators Python uses when
an indent is given. -/
def Json.dumps2 : Json → Nat → String
  | .null, _ => "null"
  | .bool true, _ => "true"
  | .bool false, _ => "false"
  | .num n, _ => toString n
  | .str s, _ => Json.dumpString s
  | .arr [], _ => "[]"
  | .arr (x :: xs), lvl =>
      "[\n" ++ jsonIndent (lvl + 1) ++ Json.dumpsItems x xs (lvl + 1)
        ++ "\n" ++ jsonIndent lvl ++ "]"
  | .obj [], _ => "\x7b\x7d"
  | .obj (m :: ms), lvl =>
      "\x7b\n" ++ jsonIndent (lvl + 1) ++ Json.dumpsMembers m ms (lvl + 1)
        ++ "\n" ++ jsonIndent lvl ++ "\x7d"
termination_by j _ => sizeOf j
decreasing_by all_goals (simp; try omega)

/-- Array items at one level, separated by `",\n" ++ indent`. -/
def Json.dumpsItems : Json → List Json → Nat → String
  | x, [], lvl => Json.dumps2 x lvl
  | x, y :: ys, lvl =>
      Json.dumps2 x lvl ++ ",\n" ++ jsonIndent lvl ++ Json.dumpsItems y ys lvl
termination_by x xs _ => 1 + sizeOf x + sizeOf xs
decreasing_by all_goals (simp; try omega)

/-- Object members at one level, `key: value` pairs separated like items. -/
def Json.dumpsMembers : String × Json → List (String × Json) → Nat → String
  | (k, v), [], lvl => Json.dumpString k ++ ": " ++ Json.dumps2 v lvl
  | (k, v), m :: ms, lvl =>
      Json.dumpString k ++ ": " ++ Json.dumps2 v lvl
        ++ ",\n" ++ jsonIndent lvl ++ Json.dumpsMembers m ms lvl
termination_by m ms _ => 1 + sizeOf m + sizeOf ms
decreasing_by all_goals (simp; try omega)

end

/-- What the filesystem holds at the raw argument string, as consulted by
`pathlib.Path.exists` and `Path.open` in `NoticesAction.__call__`: the path
does not exist, exists but reading raises `OSError` with the given message,
or is a readable file with the given contents. -/
inductive FsEntry where
  | absent : FsEntry
  | unreadable (err : String) : FsEntry
  | file (contents : String) : FsEntry
deriving DecidableEq

/-- A filesystem: what each raw path string resolves to. -/
abbrev Fs := String → FsEntry

/-- The error logged by `NoticesAction` when `json.loads` fails. -/
def jsonParseErrorMsg : String :=
  "Unable to parse provided JSON; please make sure it is valid JSON"

instance {e a : Type} [DecidableEq e] [DecidableEq a] : DecidableEq (Except e a) :=
  fun x y =>
    match x, y with
    | .ok v, .ok w =>
        match decEq v w with
        | isTrue h => isTrue (h ▸ rfl)
        | isFalse h => isFalse (fun hh => h (Except.ok.inj hh))
    | .error v, .error w =>
        match decEq v w with
        | isTrue h => isTrue (h ▸ rfl)
        | isFalse h => isFalse (fun hh => h (Except.error.inj hh))
    | .ok _, .error _ => isFalse (by intro h; exact Except.noConfusion h)
    | .error _, .ok _ => isFalse (by intro h; exact Except.noConfusion h)

/-- Outcome of `NoticesAction.__call__` on one argument string: the lines
written to the logging sink, and either the parsed payload stored into the
namespace or the `SystemExit` code raised. -/
structure NormResult where
  logs : List String
  result : Except Nat Json
deriving DecidableEq

/-- Embedding of `NoticesAction.__call__` (`notices.py` lines 45–73): if the
string is an existing path, read it (exit 1 with a logged message if the
read fails) and parse the text read, otherwise parse the string itself;
exit 1 with a logged message if `json.loads` fails.  (The `TypeError`
branch guards against non-string values and cannot arise here.) -/
def noticesAction (fs : Fs) (values : String) : NormResult :=
  match fs values with
  | .unreadable err =>
      { logs := ["Unable to read provided JSON file: " ++ err], result := .error 1 }
  | .absent =>
      match Json.loads values with
      | some data => { logs := [], result := .ok data }
      | none => { logs := [jsonParseErrorMsg], result := .error 1 }
  | .file contents =>
      match Json.loads contents with
      | some data => { logs := [], result := .ok data }
      | none => { logs := [jsonParseErrorMsg], result := .error 1 }

/-- The argparse namespace for the `notices` subcommand, with the defaults
set in `add_parser`: `label="main"`, `user=None`, `notices=None` (the
`--create` destination), `remove=False`, `get=False`. -/
structure NoticesArgs where
  label : String := "main"
  user : Option String := none
  notices : Option Json := none
  remove : Bool := false
  get : Bool := false
deriving DecidableEq

/-- Result of running the configured argparse parser on the command line:
success with a namespace, a parse-time usage error (argparse exits 2), or a
`SystemExit` raised by `NoticesAction` (exit 1, with its logged lines). -/
inductive ParseOutcome where
  | ok (args : NoticesArgs)
  | usageError (msg : String)
  | sysExit (code : Nat) (logs : List String)
deriving DecidableEq

/-- Argparse's negative-number test `^-[0-9]+$|^-[0-9]*\.[0-9]+$`: such a
token may be consumed as a value even though it starts with `-`, because
this parser has no numeric-looking option strings. -/
def isNegativeNumberTok (t : String) : Bool :=
  match t.data with
  | '-' :: rest =>
      (!rest.isEmpty && rest.all Char.isDigit) ||
      (match rest.dropWhile Char.isDigit with
       | '.' :: frac => !frac.isEmpty && frac.all Char.isDigit
       | _ => false)
  | _ => false

/-- Whether argparse classifies a token as an option rather than a value:
it starts with `-`, is not the bare `-`, does not look like a negative
number, and contains no space.  (The `--` separator is not modelled.) -/
def looksLikeOptionTok (t : String) : Bool :=
  (match t.data with
   | '-' :: _ => true
   | _ => false)
    && t ≠ "-" && !isNegativeNumberTok t && !(t.data.contains ' ')

/-- One step of argparse over the `notices` command line.  `seen` is the
member of the mutually exclusive actions group already supplied, if any;
argparse raises its conflict error in `take_action` before invoking the
argument's action, and a repeat of the same option does not conflict with
itself.  Option abbreviation and the help options are not modelled. -/
def parseNoticesTokens (fs : Fs) : List String → NoticesArgs → Option String → ParseOutcome
  | [], args, _ => .ok args
  | t :: rest, args, seen =>
    if t = "-l" ∨ t = "--label" then
      match rest with
      | v :: rest2 =>
        if looksLikeOptionTok v then .usageError ("argument " ++ t ++ ": expected one argument")
        else parseNoticesTokens fs rest2 { args with label := v } seen
      | [] => .usageError ("argument " ++ t ++ ": expected one argument")
    else if t = "-u" ∨ t = "--user" then
      match rest with
      | v :: rest2 =>
        if looksLikeOptionTok v then .usageError ("argument " ++ t ++ ": expected one argument")
        else parseNoticesTokens fs rest2 { args with user := some v } seen
      | [] => .usageError ("argument " ++ t ++ ": expected one argument")
    else if t = "--create" then
      match rest with
      | v :: rest2 =>
        if looksLikeOptionTok v then .usageError "argument --create: expected one argument"
        else
          match seen with
          | some other =>
            if other = "--create" then
              match (noticesAction fs v).result with
              | .ok data =>
                  parseNoticesTokens fs rest2 { args with notices := some data } (some "--create")
              | .error code => .sysExit code (noticesAction fs v).logs
            else .usageError ("argument --create: not allowed with argument " ++ other)
          | none =>
            match (noticesAction fs v).result with
            | .ok data =>
                parseNoticesTokens fs rest2 { args with notices := some data } (some "--create")
            | .error code => .sysExit code (noticesAction fs v).logs
      | [] => .usageError "argument --create: expected one argument"
    else if t = "--remove" then
      match seen with
      | some other =>
        if other = "--remove" then
          parseNoticesTokens fs rest { args with remove := true } (some "--remove")
        else .usageError ("argument --remove: not allowed with argument " ++ other)
      | none => parseNoticesTokens fs rest { args with remove := true } (some "--remove")
    else if t = "--get" then
      match seen with
      | some other =>
        if other = "--get" then
          parseNoticesTokens fs rest { args with get := true } (some "--get")
        else .usageError ("argument --get: not allowed with argument " ++ other)
      | none => parseNoticesTokens fs rest { args with get := true } (some "--get")
    else .usageError ("unrecognized arguments: " ++ t)

/-- Run the parser that `add_parser` configures for `notices` on a command
line (the tokens after the subcommand name). -/
def parseNotices (fs : Fs) (tokens : List String) : ParseOutcome :=
  parseNoticesTokens fs tokens {} none

/-- The opaque API collaborator returned by `get_server_api`, reduced to
the responses the `notices` command consumes: whether `check_server()`
succeeds, the `login` field of `user()`, and the value returned by
`notices(account, label)`. -/
structure Api where
  checkServerOk : Bool
  login : Option String
  noticesResult : Json

/-- One call made on the API handle.  The account argument is carried as
the `Option` Python would pass for `args.user`. -/
inductive ApiCall where
  | checkServer : ApiCall
  | userIdent : ApiCall
  | createNotices (account : Option String) (label : String) (payload : Json) : ApiCall
  | removeNotices (account : Option String) (label : String) : ApiCall
  | getNotices (account : Option String) (label : String) : ApiCall
deriving DecidableEq

/-- How an invocation of the wrapped `main` terminates abnormally:
`check_server` failure propagated unchanged, or the `BinstarError` raised
by `api_user` when no login can be resolved. -/
inductive MainErr where
  | serverError : MainErr
  | binstarError (msg : String) : MainErr
deriving DecidableEq

/-- Trace of one invocation of the (wrapped) `main`: API calls in order,
`logger.error` lines, `logger.info` output lines, and the outcome
(`.ok ()` is a normal return, i.e. process exit status 0). -/
structure RunResult where
  calls : List ApiCall
  logs : List String
  output : List String
  outcome : Except MainErr Unit
deriving DecidableEq

/-- The message logged and raised by `api_user` when no login is found. -/
def authErrorMsg : String :=
  "Unable to determine owner in user; please make sure you are logged in"

/-- The `elif` chain of `main` after the create branch. -/
def Notices.mainElse (api : Api) (args : NoticesArgs) : RunResult :=
  if args.remove then
    ⟨[.removeNotices args.user args.label], [], [], .ok ()⟩
  else if args.get then
    ⟨[.getNotices args.user args.label], [], [Json.dumps2 api.noticesResult 0], .ok ()⟩
  else ⟨[], [], [], .ok ()⟩

/-- Embedding of the undecorated `main` (`notices.py` lines 122–133): the
create branch fires on the Python truthiness of `args.notices`, the get
branch prints the fetched notices via `json.dumps(..., indent=2)`. -/
def Notices.mainInner (api : Api) (args : NoticesArgs) : RunResult :=
  match args.notices with
  | some j =>
    if j.truthy then
      ⟨[.createNotices args.user args.label j], [], [], .ok ()⟩
    else Notices.mainElse api args
  | none => Notices.mainElse api args

/-- Embedding of `api_user`-wrapped `main`: acquire the API handle, call
`check_server()` (propagating its failure), default `args.user` to the
login of `user()` and fail with a logged `BinstarError` if that is `None`,
then run the undecorated `main`. -/
def Notices.main (api : Api) (args : NoticesArgs) : RunResult :=
  if api.checkServerOk then
    match args.user with
    | some _ =>
      let r := Notices.mainInner api args
      { r with calls := .checkServer :: r.calls }
    | none =>
      match api.login with
      | some login =>
        let r := Notices.mainInner api { args with user := some login }
        { r with calls := .checkServer :: .userIdent :: r.calls }
      | none =>
        ⟨[.checkServer, .userIdent], [authErrorMsg], [], .error (.binstarError authErrorMsg)⟩
  else ⟨[.checkServer], [], [], .error .serverError⟩

/-- The calls on the API handle that are notices operations (as opposed to
the `check_server`/`user` calls the `api_user` wrapper makes). -/
def isApiAction : ApiCall → Bool
  | .createNotices _ _ _ => true
  | .removeNotices _ _ => true
  | .getNotices _ _ => true
  | _ => false

/-- The notices API operations of a run, in order. -/
def RunResult.actionCalls (r : RunResult) : List ApiCall :=
  r.calls.filter isApiAction

/-- The account `api_user` hands to the wrapped handler: `--user` if given,
else the authenticated login. -/
def resolvedUser (api : Api) (args : NoticesArgs) : Option String :=
  match args.user with
  | some u => some u
  | none => api.login

/-- `DEPRECATED_SUBCOMMANDS` from `plugins.py`. -/
def deprecatedSubcommands : List String := ["notebook"]

/-- The argument list `_subcommand` forwards: `sys.argv[1:]` with every
token equal to `"org"` removed (the list comprehension filters them all). -/
def subcommandArgs (argv : List String) : List String :=
  (argv.drop 1).filter (fun a => a ≠ "org")

/-- Trace of one mounted-handler invocation: warning lines logged, then the
argument list delegated to `binstar_main`. -/
structure HandlerRun where
  warnings : List String
  dispatched : List String
deriving DecidableEq

/-- Embedding of `_subcommand` (`plugins.py` lines 146–156): delegate the
filtered process arguments to the legacy `binstar_main` dispatcher. -/
def Plugins.subcommand (argv : List String) : HandlerRun :=
  ⟨[], subcommandArgs argv⟩

/-- The warning `_deprecate` logs, naming the preferred nested form. -/
def Plugins.deprecationMsg (name : String) : String :=
  "The existing anaconda-client commands will be deprecated. To maintain compatibility, "
    ++ "please either pin `anaconda-client<2` or update your system call with the `org` "
    ++ "prefix, e.g. \"anaconda org " ++ name ++ " ...\""

/-- Embedding of `_deprecate` (`plugins.py` lines 126–143): log the warning,
then call the wrapped subcommand callable and return its result. -/
def Plugins.deprecate (name : String) (func : List String → HandlerRun) :
    List String → HandlerRun :=
  fun argv =>
    let r := func argv
    ⟨Plugins.deprecationMsg name :: r.warnings, r.dispatched⟩

/-- The callable `_mount_subcommand` registers for a legacy passthrough
(`plugins.py` lines 184–189): the deprecation wrapper around `_subcommand`
when `is_deprecated`, else `_subcommand` itself. -/
def Plugins.mountedFunc (name : String) (is_deprecated : Bool) :
    List String → HandlerRun :=
  if is_deprecated then Plugins.deprecate name Plugins.subcommand
  else Plugins.subcommand

/-- The handler `load_legacy_subcommands` mounts for `name`: deprecation is
decided by membership in `DEPRECATED_SUBCOMMANDS`. -/
def Plugins.legacyHandler (name : String) : List String → HandlerRun :=
  Plugins.mountedFunc name (deprecatedSubcommands.contains name)

/-- How many of the three mutually exclusive actions a parsed namespace has
selected (`--create` sets `notices`, the flags set their booleans). -/
def selectedActions (args : NoticesArgs) : Nat :=
  (if args.notices.isSome then 1 else 0) + (if args.remove then 1 else 0) +
    (if args.get then 1 else 0)

/-- The account argument carried by a notices API operation (`none` for the
wrapper's own `check_server`/`user` calls). -/
def ApiCall.account : ApiCall → Option String
  | .createNotices u _ _ => u
  | .removeNotices u _ => u
  | .getNotices u _ => u
  | .checkServer => none
  | .userIdent => none

/-- Invariant tying the parser's `seen` conflict marker to the namespace:
before any action option is consumed nothing is selected, and after one is,
the other two are still at their defaults. -/
def excluInv (args : NoticesArgs) (seen : Option String) : Prop :=
  match seen with
  | none => args.notices = none ∧ args.remove = false ∧ args.get = false
  | some s =>
      (s = "--create" ∧ args.remove = false ∧ args.get = false) ∨
      (s = "--remove" ∧ args.notices = none ∧ args.get = false) ∨
      (s = "--get" ∧ args.notices = none ∧ args.remove = false)

/-- Modelled from the spec's words, for comparison with `subcommandArgs`
(claim C9): forward the original arguments with only the nesting keyword
token removed, every other argument unchanged — i.e. erase one `"org"`. -/
def claimedForwardArgs (argv : List String) : List String :=
  (argv.drop 1).erase "org"

/-- An empty filesystem: no argument string names an existing path. -/
def fs0 : Fs := fun _ => .absent

/-- A filesystem on which the literal JSON text `"1"` happens to also name
an existing readable file whose contents are `"2"`. -/
def fsShadow : Fs := fun p => if p = "1" then .file "2" else .absent

/-- A filesystem with a file `A` whose JSON contents `"1"` themselves name
a second existing file. -/
def fsChain : Fs := fun p =>
  if p = "A" then .file "1" else if p = "1" then .file "2" else .absent

/-- A filesystem holding `./notice.json` with contents `{"x":2}` (and on
which that contents string is not itself a path). -/
def fsNotice : Fs := fun p =>
  if p = "./notice.json" then .file "\x7b\"x\":2\x7d" else .absent

/-- An API whose server check passes, whose authenticated login is
`alice`, and which returns `{"notices": []}` from the notices query. -/
def api0 : Api := ⟨true, some "alice", .obj [("notices", .arr [])]⟩

/-- C3 (as stated) is false: quantifying over every valid JSON text ignores
the `path.exists()` check that runs first.  On a filesystem where the text
`"1"` names an existing file containing `"2"`, normalization returns `2`,
not the direct parse `1`. -/
theorem c3_counterexample :
    Json.loads "1" = some (.num 1) ∧
    (noticesAction fsShadow "1").result = .ok (.num 2) ∧
    ¬(noticesAction fsShadow "1").result = .ok (.num 1) :=
  ⟨rfl, rfl, by decide⟩

/-- C3 (amended): for every input string that is valid JSON text and does
not name an existing filesystem entry, normalizing it yields exactly the
payload obtained by parsing the string directly, with nothing logged. -/
theorem c3_valid_json_text (fs : Fs) (s : String) (j : Json)
    (hfs : fs s = .absent) (hj : Json.loads s = some j) :
    noticesAction fs s = ⟨[], .ok j⟩ := by
  simp [noticesAction, hfs, hj]

/-- Witness for C3 at the concrete input `"[1, 2]"` on the empty
filesystem. -/
theorem c3_valid_json_text_witness :
    noticesAction fs0 "[1, 2]" = ⟨[], .ok (.arr [.num 1, .num 2])⟩ :=
  c3_valid_json_text fs0 "[1, 2]" (.arr [.num 1, .num 2]) rfl rfl

/-- C4 (as stated) is false: normalizing the file's literal contents is not
always the same as parsing them, because the contents may themselves name
an existing file.  With `A` containing the JSON text `"1"` and a file `"1"`
containing `"2"`, normalizing `A` gives `1` but normalizing the contents
string `"1"` gives `2`. -/
theorem c4_counterexample :
    fsChain "A" = .file "1" ∧ Json.loads "1" = some (.num 1) ∧
    (noticesAction fsChain "A").result = .ok (.num 1) ∧
    (noticesAction fsChain "1").result = .ok (.num 2) ∧
    noticesAction fsChain "A" ≠ noticesAction fsChain "1" :=
  ⟨rfl, rfl, rfl, rfl, by decide⟩

/-- C4 (amended): normalizing a path to a readable file with valid JSON
contents yields the parse of those contents, and agrees with normalizing
the literal contents whenever the contents string is not itself an existing
path. -/
theorem c4_file_normalization (fs : Fs) (p c : String) (j : Json)
    (hp : fs p = .file c) (hj : Json.loads c = some j) :
    noticesAction fs p = ⟨[], .ok j⟩ ∧
    (fs c = .absent → noticesAction fs p = noticesAction fs c) := by
  refine ⟨by simp [noticesAction, hp, hj], fun hc => ?_⟩
  simp [noticesAction, hp, hc, hj]

/-- Witness for C4: the spec's scenario, `./notice.json` containing
`{"x":2}` behaves exactly like the literal argument. -/
theorem c4_file_normalization_witness :
    noticesAction fsNotice "./notice.json" = ⟨[], .ok (.obj [("x", .num 2)])⟩ ∧
    noticesAction fsNotice "./notice.json" =
      noticesAction fsNotice "\x7b\"x\":2\x7d" := by
  have h := c4_file_normalization fsNotice "./notice.json" "\x7b\"x\":2\x7d"
    (.obj [("x", .num 2)]) rfl rfl
  exact ⟨h.1, h.2 rfl⟩

/-- C5: an input that neither names a readable existing file nor parses as
JSON makes normalization exit with status 1 after logging an error, storing
no payload. -/
theorem c5_invalid_input (fs : Fs) (s : String)
    (hnf : ∀ c, fs s ≠ .file c) (hj : Json.loads s = none) :
    (noticesAction fs s).result = .error 1 ∧ (noticesAction fs s).logs ≠ [] := by
  cases hfs : fs s with
  | absent => simp [noticesAction, hfs, hj]
  | unreadable e => simp [noticesAction, hfs]
  | file c => exact absurd hfs (hnf c)

/-- Witness for C5 at the concrete input `"not json"` on the empty
filesystem. -/
theorem c5_invalid_input_witness :
    (noticesAction fs0 "not json").result = .error 1 ∧
      (noticesAction fs0 "not json").logs ≠ [] :=
  c5_invalid_input fs0 "not json" (fun _ h => FsEntry.noConfusion h) rfl

/-- Every API call issued by the `elif` chain carries `args.user` as its
account argument. -/
lemma mainElse_account (api : Api) (args : NoticesArgs) (c : ApiCall)
    (hc : c ∈ (Notices.mainElse api args).calls) : c.account = args.user := by
  unfold Notices.mainElse at hc
  cases hr : args.remove with
  | true => simp [hr] at hc; subst hc; rfl
  | false =>
    cases hg : args.get with
    | true => simp [hr, hg] at hc; subst hc; rfl
    | false => simp [hr, hg] at hc

/-- Every API call issued by the undecorated `main` carries `args.user` as
its account argument. -/
lemma mainInner_account (api : Api) (args : NoticesArgs) (c : ApiCall)
    (hc : c ∈ (Notices.mainInner api args).calls) : c.account = args.user := by
  unfold Notices.mainInner at hc
  cases hn : args.notices with
  | none =>
    rw [hn] at hc
    exact mainElse_account api args c hc
  | some j =>
    rw [hn] at hc
    cases ht : j.truthy with
    | true => simp [ht] at hc; subst hc; rfl
    | false =>
      simp only [ht] at hc
      exact mainElse_account api args c (by simpa using hc)

/-- When nothing selects a branch of `main`, it does nothing at all. -/
lemma mainInner_noop (api : Api) (args : NoticesArgs)
    (hn : ∀ j, args.notices = some j → j.truthy = false)
    (hr : args.remove = false) (hg : args.get = false) :
    Notices.mainInner api args = ⟨[], [], [], .ok ()⟩ := by
  unfold Notices.mainInner Notices.mainElse
  cases h : args.notices with
  | none => simp [hr, hg]
  | some j => simp [hn j h, hr, hg]

/-- C1 (as stated) is false: a successfully normalized but falsy payload
(such as `{}`) never reaches `create_notices`, because `main` dispatches on
the payload's truthiness.  Concretely, `--create` with argument `{}` and `--label beta` parses
fine, stores payload `{}`, and then no API action is invoked. -/
theorem c1_counterexample :
    parseNotices fs0 ["--create", "\x7b\x7d", "--label", "beta"] =
      .ok { label := "beta", notices := some (.obj []) } ∧
    (Notices.main api0 { label := "beta", notices := some (.obj []) }).actionCalls
      = [] := by
  constructor
  · decide
  · decide

/-- C1 (amended): whenever `--create` supplied a successfully normalized
payload that is truthy, the dispatcher makes exactly one notices API call,
a create with the resolved account, the label and that payload. -/
theorem c1_create_dispatch (api : Api) (args : NoticesArgs) (j : Json) (u : String)
    (hcs : api.checkServerOk = true) (hn : args.notices = some j)
    (ht : j.truthy = true) (hu : resolvedUser api args = some u) :
    (Notices.main api args).actionCalls =
      [.createNotices (some u) args.label j] := by
  unfold Notices.main
  rw [hcs]
  cases hau : args.user with
  | some v =>
    have hv : v = u := by
      rw [resolvedUser, hau] at hu
      exact Option.some.inj hu
    subst hv
    simp [Notices.mainInner, hn, ht, RunResult.actionCalls, isApiAction, hau]
  | none =>
    cases hl : api.login with
    | some login =>
      have hv : login = u := by
        rw [resolvedUser, hau, hl] at hu
        exact Option.some.inj hu
      subst hv
      simp [Notices.mainInner, hn, ht, RunResult.actionCalls, isApiAction]
    | none =>
      rw [resolvedUser, hau, hl] at hu
      exact Option.noConfusion hu

/-- Witness for C1 at the spec's scenario: payload `{"a":1}`, label `beta`,
authenticated as `alice`. -/
theorem c1_create_dispatch_witness :
    (Notices.main api0
        { label := "beta", notices := some (.obj [("a", .num 1)]) }).actionCalls =
      [.createNotices (some "alice") "beta" (.obj [("a", .num 1)])] :=
  c1_create_dispatch api0 { label := "beta", notices := some (.obj [("a", .num 1)]) }
    (.obj [("a", .num 1)]) "alice" rfl rfl rfl rfl

/-- C2: with a falsy parsed payload (and neither `--remove` nor `--get`),
the run performs no notices API operation and prints nothing — the create
branch tests the payload's truthiness, not whether `--create` was given. -/
theorem c2_falsy_payload_noop (api : Api) (args : NoticesArgs) (j : Json)
    (hn : args.notices = some j) (ht : j.truthy = false)
    (hr : args.remove = false) (hg : args.get = false) :
    (Notices.main api args).actionCalls = [] ∧
      (Notices.main api args).output = [] := by
  have hin : ∀ u, Notices.mainInner api { args with user := u } = ⟨[], [], [], .ok ()⟩ := by
    intro u
    exact mainInner_noop api _ (fun k hk => by
      simp only at hk; rw [hn] at hk; cases hk; exact ht) hr hg
  have hin0 : Notices.mainInner api args = ⟨[], [], [], .ok ()⟩ :=
    mainInner_noop api args (fun k hk => by rw [hn] at hk; cases hk; exact ht) hr hg
  unfold Notices.main
  cases hcs : api.checkServerOk with
  | false => simp [RunResult.actionCalls, isApiAction]
  | true =>
    cases hau : args.user with
    | some v => simp [hin0, RunResult.actionCalls, isApiAction]
    | none =>
      cases hl : api.login with
      | none => simp [RunResult.actionCalls, isApiAction]
      | some login => simp [hin login, RunResult.actionCalls, isApiAction]

/-- Witness for C2: payload `{}` with the default flags makes no notices
call and prints nothing. -/
theorem c2_falsy_payload_noop_witness :
    (Notices.main api0 { notices := some (.obj []) }).actionCalls = [] ∧
      (Notices.main api0 { notices := some (.obj []) }).output = [] :=
  c2_falsy_payload_noop api0 { notices := some (.obj []) } (.obj []) rfl rfl rfl rfl

/-- C7: if `--user` is omitted and the identity query yields no login, the
wrapped handler stops with the `BinstarError` after logging the message,
having made no notices API call; and any notices API call an invocation
does make carries a non-null account. -/
theorem c7_auth_resolution (api : Api) (args : NoticesArgs) :
    (api.checkServerOk = true → args.user = none → api.login = none →
      Notices.main api args =
        ⟨[.checkServer, .userIdent], [authErrorMsg], [],
          .error (.binstarError authErrorMsg)⟩) ∧
    (∀ c ∈ (Notices.main api args).calls, isApiAction c = true →
      c.account ≠ none) := by
  constructor
  · intro hcs hau hl
    simp [Notices.main, hcs, hau, hl]
  · intro c hc hact
    unfold Notices.main at hc
    cases hcs : api.checkServerOk with
    | false =>
      rw [hcs] at hc
      simp at hc
      subst hc
      simp [isApiAction] at hact
    | true =>
      rw [hcs] at hc
      simp only [if_true] at hc
      cases hau : args.user with
      | some v =>
        rw [hau] at hc
        simp at hc
        rcases hc with hc | hc
        · subst hc; simp [isApiAction] at hact
        · have := mainInner_account api args c hc
          rw [this, hau]
          exact Option.noConfusion
      | none =>
        rw [hau] at hc
        cases hl : api.login with
        | some login =>
          rw [hl] at hc
          simp at hc
          rcases hc with hc | hc | hc
          · subst hc; simp [isApiAction] at hact
          · subst hc; simp [isApiAction] at hact
          · have := mainInner_account api { args with user := some login } c hc
            rw [this]
            exact Option.noConfusion
        | none =>
          rw [hl] at hc
          simp at hc
          rcases hc with hc | hc <;> subst hc <;> simp [isApiAction] at hact

/-- Witness for C7: with a passing server check, no `--user` and no login,
the concrete run ends in the authentication error with only the wrapper
calls made. -/
theorem c7_auth_resolution_witness :
    Notices.main ⟨true, none, .null⟩ { remove := true } =
      ⟨[.checkServer, .userIdent], [authErrorMsg], [],
        .error (.binstarError authErrorMsg)⟩ :=
  (c7_auth_resolution ⟨true, none, .null⟩ { remove := true }).1 rfl rfl rfl

/-- C8: with `--get` selected (so `notices` is at its default and
`--remove` unset), the run makes exactly the fetch call with the resolved
account and label, prints the result as two-space-indented JSON, and exits
normally. -/
theorem c8_get_prints (api : Api) (args : NoticesArgs) (u : String)
    (hcs : api.checkServerOk = true) (hn : args.notices = none)
    (hr : args.remove = false) (hg : args.get = true)
    (hu : resolvedUser api args = some u) :
    (Notices.main api args).actionCalls = [.getNotices (some u) args.label] ∧
    (Notices.main api args).output = [Json.dumps2 api.noticesResult 0] ∧
    (Notices.main api args).outcome = .ok () := by
  unfold Notices.main
  rw [hcs]
  cases hau : args.user with
  | some v =>
    have hv : v = u := by
      rw [resolvedUser, hau] at hu
      exact Option.some.inj hu
    subst hv
    refine ⟨?_, ?_, ?_⟩ <;>
      simp [Notices.mainInner, Notices.mainElse, hn, hr, hg, hau,
        RunResult.actionCalls, isApiAction]
  | none =>
    cases hl : api.login with
    | some login =>
      have hv : login = u := by
        rw [resolvedUser, hau, hl] at hu
        exact Option.some.inj hu
      subst hv
      refine ⟨?_, ?_, ?_⟩ <;>
        simp [Notices.mainInner, Notices.mainElse, hn, hr, hg,
          RunResult.actionCalls, isApiAction]
    | none =>
      rw [resolvedUser, hau, hl] at hu
      exact Option.noConfusion hu

/-- Witness for C8 at the spec's scenario: `--get --label main` with the
API returning `{"notices": []}` prints exactly the two-space-indented
serialization and exits 0. -/
theorem c8_get_prints_witness :
    (Notices.main api0 { get := true }).actionCalls =
        [.getNotices (some "alice") "main"] ∧
      (Notices.main api0 { get := true }).output = ["\x7b\n  \"notices\": []\n\x7d"] ∧
      (Notices.main api0 { get := true }).outcome = .ok () := by
  have h := c8_get_prints api0 { get := true } "alice" rfl rfl rfl rfl rfl
  refine ⟨h.1, ?_, h.2.2⟩
  rw [h.2.1]
  simp [api0, Json.dumps2, Json.dumpsMembers, Json.dumpString, jsonIndent,
    escapeCharDump]
  rfl

/-- Counting an element a filter keeps is unchanged by the filter. -/
lemma count_filter_eq_count {α : Type} [DecidableEq α] (p : α → Bool) (a : α)
    (hp : p a = true) (l : List α) : (l.filter p).count a = l.count a := by
  induction l with
  | nil => rfl
  | cons x xs ih =>
    rw [List.filter_cons]
    by_cases hx : p x = true
    · rw [if_pos hx, List.count_cons, List.count_cons, ih]
    · rw [if_neg hx, ih, List.count_cons]
      have hax : (a == x) = false := by
        apply beq_false_of_ne
        intro h
        exact hx (h ▸ hp)
      simp [hax]
      intro h
      exact hx (by rw [h]; exact hp)

/-- C9 (as stated) is false: the passthrough filters out every token equal
to `"org"`, not just the nesting keyword.  With an argument whose value
happens to be `"org"` (here a trailing positional), the forwarded list
drops it, unlike removal of the single nesting token. -/
theorem c9_counterexample :
    Plugins.subcommand ["anaconda", "org", "copy", "org"] =
      ⟨[], ["copy"]⟩ ∧
    claimedForwardArgs ["anaconda", "org", "copy", "org"] = ["copy", "org"] ∧
    (Plugins.subcommand ["anaconda", "org", "copy", "org"]).dispatched ≠
      claimedForwardArgs ["anaconda", "org", "copy", "org"] := by
  refine ⟨rfl, rfl, by decide⟩

/-- C9 (amended): the passthrough re-invokes the legacy dispatcher with the
original `sys.argv[1:]` minus every token equal to `"org"`: the forwarded
list is a subsequence of the original (order preserved), contains no
`"org"`, and keeps every other argument with its multiplicity. -/
theorem c9_passthrough_args (argv : List String) :
    List.Sublist (Plugins.subcommand argv).dispatched (argv.drop 1) ∧
    "org" ∉ (Plugins.subcommand argv).dispatched ∧
    (∀ a, a ≠ "org" →
      ((Plugins.subcommand argv).dispatched).count a = (argv.drop 1).count a) := by
  refine ⟨List.filter_sublist _, ?_, ?_⟩
  · intro hmem
    have := (List.mem_filter.mp hmem).2
    simp at this
  · intro a ha
    exact count_filter_eq_count _ a (by simp [ha]) _

/-- Witness for C9 on a concrete command line. -/
theorem c9_passthrough_args_witness :
    List.Sublist (Plugins.subcommand ["anaconda", "org", "upload", "f.txt"]).dispatched
        (["anaconda", "org", "upload", "f.txt"].drop 1) ∧
      "org" ∉ (Plugins.subcommand ["anaconda", "org", "upload", "f.txt"]).dispatched ∧
      ((Plugins.subcommand ["anaconda", "org", "upload", "f.txt"]).dispatched).count "upload"
        = (["anaconda", "org", "upload", "f.txt"].drop 1).count "upload" := by
  have h := c9_passthrough_args ["anaconda", "org", "upload", "f.txt"]
  exact ⟨h.1, h.2.1, h.2.2 "upload" (by decide)⟩

/-- C10: invoking the handler mounted for a deprecated subcommand logs
exactly one warning, whose text names the preferred nested form
(`anaconda org <name> ...`), and then delegates exactly as the plain
passthrough does — deprecation never fails the invocation. -/
theorem c10_deprecated_soft (name : String) (argv : List String)
    (h : name ∈ deprecatedSubcommands) :
    (Plugins.legacyHandler name argv).warnings = [Plugins.deprecationMsg name] ∧
    (Plugins.legacyHandler name argv).dispatched =
      (Plugins.subcommand argv).dispatched ∧
    (∃ pre post, Plugins.deprecationMsg name =
      pre ++ ("anaconda org " ++ name) ++ post) := by
  simp only [deprecatedSubcommands, List.mem_singleton] at h
  subst h
  refine ⟨rfl, rfl, ?_⟩
  exact ⟨"The existing anaconda-client commands will be deprecated. " ++
    "To maintain compatibility, please either pin `anaconda-client<2` " ++
    "or update your system call with the `org` prefix, e.g. \"",
    " ...\"", rfl⟩

/-- Witness for C10 at the deprecated subcommand `notebook`. -/
theorem c10_deprecated_soft_witness :
    (Plugins.legacyHandler "notebook" ["anaconda", "notebook", "list"]).warnings =
        [Plugins.deprecationMsg "notebook"] ∧
      (Plugins.legacyHandler "notebook" ["anaconda", "notebook", "list"]).dispatched =
        ["notebook", "list"] := by
  have h := c10_deprecated_soft "notebook" ["anaconda", "notebook", "list"] (by decide)
  exact ⟨h.1, by rw [h.2.1]; rfl⟩

/-- A namespace satisfying the parser invariant has at most one action
selected. -/
lemma excluInv_selected_le (args : NoticesArgs) (seen : Option String)
    (h : excluInv args seen) : selectedActions args ≤ 1 := by
  cases seen with
  | none =>
    obtain ⟨hn, hr, hg⟩ := h
    simp [selectedActions, hn, hr, hg]
  | some s =>
    rcases h with ⟨_, hr, hg⟩ | ⟨_, hn, hg⟩ | ⟨_, hn, hr⟩
    · cases hno : args.notices <;> simp [selectedActions, hr, hg, hno]
    · cases hrm : args.remove <;> simp [selectedActions, hn, hg, hrm]
    · cases hgt : args.get <;> simp [selectedActions, hn, hr, hgt]

/-- Any successful run of the configured parser, started from a state
satisfying the conflict-marker invariant, ends with at most one of the
three actions selected (strong induction on the command-line length, since
value options consume two tokens per step). -/
lemma parse_ok_selected_le (fs : Fs) :
    ∀ (n : Nat) (toks : List String) (args : NoticesArgs) (seen : Option String)
      (args' : NoticesArgs), toks.length ≤ n → excluInv args seen →
      parseNoticesTokens fs toks args seen = .ok args' →
      selectedActions args' ≤ 1 := by
  intro n
  induction n with
  | zero =>
    intro toks args seen args' hlen hinv hp
    have htoks : toks = [] := List.length_eq_zero.mp (Nat.le_zero.mp hlen)
    subst htoks
    simp only [parseNoticesTokens, ParseOutcome.ok.injEq] at hp
    subst hp
    exact excluInv_selected_le args seen hinv
  | succ n ihn =>
    intro toks args seen args' hlen hinv hp
    cases toks with
    | nil =>
      simp only [parseNoticesTokens, ParseOutcome.ok.injEq] at hp
      subst hp
      exact excluInv_selected_le args seen hinv
    | cons t rest =>
      cases rest with
      | nil =>
        cases seen with
        | none =>
          simp only [parseNoticesTokens] at hp
          split at hp
          · exact ParseOutcome.noConfusion hp
          · split at hp
            · exact ParseOutcome.noConfusion hp
            · split at hp
              · exact ParseOutcome.noConfusion hp
              · split at hp
                · obtain ⟨hn2, hr, hg⟩ := hinv
                  have he := ParseOutcome.ok.inj hp
                  subst he
                  simp [selectedActions, hn2, hg]
                · split at hp
                  · obtain ⟨hn2, hr, hg⟩ := hinv
                    have he := ParseOutcome.ok.inj hp
                    subst he
                    simp [selectedActions, hn2, hr]
                  · exact ParseOutcome.noConfusion hp
        | some other =>
          simp only [parseNoticesTokens] at hp
          split at hp
          · exact ParseOutcome.noConfusion hp
          · split at hp
            · exact ParseOutcome.noConfusion hp
            · split at hp
              · exact ParseOutcome.noConfusion hp
              · split at hp
                · split at hp
                  · rename_i ho
                    subst ho
                    rcases hinv with ⟨hs, _, _⟩ | ⟨_, hn2, hg⟩ | ⟨hs, _, _⟩
                    · exact absurd hs (by decide)
                    · have he := ParseOutcome.ok.inj hp
                      subst he
                      simp [selectedActions, hn2, hg]
                    · exact absurd hs (by decide)
                  · exact ParseOutcome.noConfusion hp
                · split at hp
                  · split at hp
                    · rename_i ho
                      subst ho
                      rcases hinv with ⟨hs, _, _⟩ | ⟨hs, _, _⟩ | ⟨_, hn2, hr⟩
                      · exact absurd hs (by decide)
                      · exact absurd hs (by decide)
                      · have he := ParseOutcome.ok.inj hp
                        subst he
                        simp [selectedActions, hn2, hr]
                    · exact ParseOutcome.noConfusion hp
                  · exact ParseOutcome.noConfusion hp
      | cons v rest2 =>
        cases seen with
        | none =>
          simp only [parseNoticesTokens] at hp
          split at hp
          · split at hp
            · exact ParseOutcome.noConfusion hp
            · refine ihn _ _ _ args' ?_ ?_ hp
              · simp only [List.length_cons] at hlen
                omega
              · exact hinv
          · split at hp
            · split at hp
              · exact ParseOutcome.noConfusion hp
              · refine ihn _ _ _ args' ?_ ?_ hp
                · simp only [List.length_cons] at hlen
                  omega
                · exact hinv
            · split at hp
              · split at hp
                · exact ParseOutcome.noConfusion hp
                · split at hp
                  · obtain ⟨hn2, hr, hg⟩ := hinv
                    refine ihn _ _ _ args' ?_ ?_ hp
                    · simp only [List.length_cons] at hlen
                      omega
                    · exact Or.inl ⟨rfl, hr, hg⟩
                  · exact ParseOutcome.noConfusion hp
              · split at hp
                · obtain ⟨hn2, hr, hg⟩ := hinv
                  refine ihn _ _ _ args' ?_ ?_ hp
                  · simp only [List.length_cons] at hlen ⊢
                    omega
                  · exact Or.inr (Or.inl ⟨rfl, hn2, hg⟩)
                · split at hp
                  · obtain ⟨hn2, hr, hg⟩ := hinv
                    refine ihn _ _ _ args' ?_ ?_ hp
                    · simp only [List.length_cons] at hlen ⊢
                      omega
                    · exact Or.inr (Or.inr ⟨rfl, hn2, hr⟩)
                  · exact ParseOutcome.noConfusion hp
        | some other =>
          simp only [parseNoticesTokens] at hp
          split at hp
          · split at hp
            · exact ParseOutcome.noConfusion hp
            · refine ihn _ _ _ args' ?_ ?_ hp
              · simp only [List.length_cons] at hlen
                omega
              · exact hinv
          · split at hp
            · split at hp
              · exact ParseOutcome.noConfusion hp
              · refine ihn _ _ _ args' ?_ ?_ hp
                · simp only [List.length_cons] at hlen
                  omega
                · exact hinv
            · split at hp
              · split at hp
                · exact ParseOutcome.noConfusion hp
                · split at hp
                  · rename_i ho
                    subst ho
                    rcases hinv with ⟨_, hr, hg⟩ | ⟨hs, _, _⟩ | ⟨hs, _, _⟩
                    · split at hp
                      · refine ihn _ _ _ args' ?_ ?_ hp
                        · simp only [List.length_cons] at hlen
                          omega
                        · exact Or.inl ⟨rfl, hr, hg⟩
                      · exact ParseOutcome.noConfusion hp
                    · exact absurd hs (by decide)
                    · exact absurd hs (by decide)
                  · exact ParseOutcome.noConfusion hp
              · split at hp
                · split at hp
                  · rename_i ho
                    subst ho
                    rcases hinv with ⟨hs, _, _⟩ | ⟨_, hn2, hg⟩ | ⟨hs, _, _⟩
                    · exact absurd hs (by decide)
                    · refine ihn _ _ _ args' ?_ ?_ hp
                      · simp only [List.length_cons] at hlen ⊢
                        omega
                      · exact Or.inr (Or.inl ⟨rfl, hn2, hg⟩)
                    · exact absurd hs (by decide)
                  · exact ParseOutcome.noConfusion hp
                · split at hp
                  · split at hp
                    · rename_i ho
                      subst ho
                      rcases hinv with ⟨hs, _, _⟩ | ⟨hs, _, _⟩ | ⟨_, hn2, hr⟩
                      · exact absurd hs (by decide)
                      · exact absurd hs (by decide)
                      · refine ihn _ _ _ args' ?_ ?_ hp
                        · simp only [List.length_cons] at hlen ⊢
                          omega
                        · exact Or.inr (Or.inr ⟨rfl, hn2, hr⟩)
                    · exact ParseOutcome.noConfusion hp
                  · exact ParseOutcome.noConfusion hp

/-- C6 (as stated, with "exactly one") is false: the actions group is not
required, so a command line selecting no action parses successfully and the
handler is reached with zero actions selected (the silent no-op the spec
flags as an open question). -/
theorem c6_counterexample :
    parseNotices fs0 [] = .ok {} ∧ selectedActions {} = 0 :=
  ⟨rfl, rfl⟩

/-- C6 (amended): at most one of the three actions can be selected —
every successful parse yields a namespace with at most one action set, and
supplying two distinct action options is rejected by the parser (before the
handler runs), as on the concrete line `--remove --get`. -/
theorem c6_mutual_exclusion :
    (∀ (fs : Fs) (toks : List String) (args : NoticesArgs),
      parseNotices fs toks = .ok args → selectedActions args ≤ 1) ∧
    parseNotices fs0 ["--remove", "--get"] =
      .usageError "argument --get: not allowed with argument --remove" := by
  constructor
  · intro fs toks args hp
    exact parse_ok_selected_le fs toks.length toks {} none args (Nat.le_refl _) ⟨rfl, rfl, rfl⟩ hp
  · rfl

/-- Witness for C6: a parse that selects only `--get` satisfies the bound. -/
theorem c6_mutual_exclusion_witness :
    selectedActions { get := true } ≤ 1 :=
  c6_mutual_exclusion.1 fs0 ["--get"] { get := true } rfl
